import Mathlib

/-!
Verification development for the loot-api database facade
(`src/api/api_database.cpp`) and the metadata model it drives.

The facade code is embedded directly from `api_database.cpp`.  The
metadata value types, the list/merge operations and the sorter live in
translation units that are not part of this tree, so they are modelled
from the specification; every such definition carries a doc comment
starting with `Modelled from the spec:`.
-/

namespace Loot

/-- Error kinds of the API, one constructor per kind of §7. -/
inductive LootError where
  | fileAccessError
  | invalidArgument
  | conditionError
  | gitStateError
  | cyclicInteractionError
  | undefinedGroup
deriving DecidableEq

/-- Case-insensitive key normalisation used for all filename comparisons. -/
def lootKey (s : String) : String := s.toLower

/-- Modelled from the spec: `File` metadata value (file.cpp is not under
src/): a name plus optional display name plus optional condition string
(empty string encodes an absent condition). -/
structure File where
  name : String
  display : String
  condition : String
deriving DecidableEq

/-- Modelled from the spec: `Tag` value (tag.cpp is not under src/): name
plus add/remove flag plus optional condition. -/
structure Tag where
  name : String
  isAddition : Bool
  condition : String
deriving DecidableEq

/-- Modelled from the spec: localised message content (language tag + text). -/
structure MessageContent where
  language : String
  text : String
deriving DecidableEq

/-- Message type: say, warn or error. -/
inductive MessageType where
  | say
  | warn
  | error
deriving DecidableEq

/-- Modelled from the spec: `Message` value (message.cpp is not under
src/): type, localised content, optional condition string. -/
structure Message where
  type : MessageType
  content : List MessageContent
  condition : String
deriving DecidableEq

/-- Modelled from the spec: cleaning data record (plugin_cleaning_data.cpp
is not under src/): CRC of the dirty plugin, utility name, record counts,
info message. -/
structure PluginCleaningData where
  crc : Nat
  utility : String
  itm : Nat
  deletedRefs : Nat
  deletedNav : Nat
  info : String
deriving DecidableEq

/-- Modelled from the spec: location value (location.cpp is not under src/). -/
structure Location where
  url : String
  name : String
deriving DecidableEq

/-- Modelled from the spec: tri-state priority, flag in {unset, default, user}
(priority.cpp is not under src/). -/
inductive Priority where
  | unset
  | defaultSet (value : Int)
  | userSet (value : Int)
deriving DecidableEq

/-- Modelled from the spec: plugin metadata record (plugin_metadata.cpp is
not under src/).  Scalars that the §4.2 merge discipline treats as "set or
not" are Options; the tri-state priorities use `Priority`. -/
structure PluginMetadata where
  name : String
  group : Option String
  after : List File
  req : List File
  inc : List File
  messages : List Message
  tags : List Tag
  dirty : List PluginCleaningData
  locations : List Location
  priority : Priority
  globalPriority : Priority
  enabled : Option Bool
deriving DecidableEq

/-- The metadata entry that carries a name and nothing else, as produced by
the `PluginMetadata(name)` constructor. -/
def PluginMetadata.emptyNamed (n : String) : PluginMetadata :=
  ⟨n, none, [], [], [], [], [], [], [], .unset, .unset, none⟩

/-- Modelled from the spec: a plugin entry is name-only when it carries no
metadata besides its name. -/
def PluginMetadata.hasNameOnly (p : PluginMetadata) : Bool :=
  p.group.isNone && p.after.isEmpty && p.req.isEmpty && p.inc.isEmpty &&
  p.messages.isEmpty && p.tags.isEmpty && p.dirty.isEmpty &&
  p.locations.isEmpty && (p.priority == Priority.unset) &&
  (p.globalPriority == Priority.unset) && p.enabled.isNone

/-- Union keyed by a boolean equivalence: keep self's items, then append
other's items whose key does not already occur in self. -/
def unionBy (k : α → α → Bool) (self other : List α) : List α :=
  self ++ other.filter (fun o => !(self.any (fun s => k s o)))

/-- Key equality for file references: case-insensitive on the name. -/
def fileKeyEq (a b : File) : Bool := lootKey a.name == lootKey b.name

/-- Key equality for tags: (name, add/remove flag). -/
def tagKeyEq (a b : Tag) : Bool :=
  (a.name == b.name) && (a.isAddition == b.isAddition)

/-- Key equality for cleaning data: the CRC. -/
def dirtyKeyEq (a b : PluginCleaningData) : Bool := a.crc == b.crc

/-- Key equality for locations: case-insensitive on the URL. -/
def locationKeyEq (a b : Location) : Bool := lootKey a.url == lootKey b.url

/-- Scalar merge: if other has a value set, it wins; otherwise keep self. -/
def mergeOpt (self other : Option α) : Option α :=
  match other with
  | some v => some v
  | none => self

/-- Priority merge: an unset priority is overwritten by any set priority;
an unset other keeps self. -/
def mergePriority (self other : Priority) : Priority :=
  match other with
  | .unset => self
  | o => o

/-- Modelled from the spec: `PluginMetadata::MergeMetadata` (§4.2,
plugin_metadata.cpp is not under src/): scalars follow "other wins when
set", the keyed collections take set union with self first, messages
concatenate with self first; the name is the key and is kept from self. -/
def mergeMetadata (self other : PluginMetadata) : PluginMetadata :=
  { name := self.name
    group := mergeOpt self.group other.group
    after := unionBy fileKeyEq self.after other.after
    req := unionBy fileKeyEq self.req other.req
    inc := unionBy fileKeyEq self.inc other.inc
    messages := self.messages ++ other.messages
    tags := unionBy tagKeyEq self.tags other.tags
    dirty := unionBy dirtyKeyEq self.dirty other.dirty
    locations := unionBy locationKeyEq self.locations other.locations
    priority := mergePriority self.priority other.priority
    globalPriority := mergePriority self.globalPriority other.globalPriority
    enabled := mergeOpt self.enabled other.enabled }

/-- Modelled from the spec: a metadata list (metadata_list.cpp is not under
src/): plugin entries, global messages and known bash tag names.  The
masterlist's provenance fields play no part in any claim and are omitted. -/
structure MetadataList where
  plugins : List PluginMetadata
  messages : List Message
  bashTags : List String
deriving DecidableEq

/-- The empty metadata list, as default-constructed. -/
def MetadataList.empty : MetadataList := ⟨[], [], []⟩

/-- Modelled from the spec: `MetadataList::FindPlugin`: look the normalised
name up; a missing entry yields a name-only record for that name. -/
def MetadataList.findPlugin (l : MetadataList) (name : String) : PluginMetadata :=
  match l.plugins.find? (fun p => lootKey p.name == lootKey name) with
  | some p => p
  | none => PluginMetadata.emptyNamed name

/-- Modelled from the spec: `MetadataList::AddPlugin` stores a new entry. -/
def MetadataList.addPlugin (l : MetadataList) (md : PluginMetadata) : MetadataList :=
  { l with plugins := l.plugins ++ [md] }

/-- Modelled from the spec: `MetadataList::ErasePlugin` removes the entry
whose normalised name matches. -/
def MetadataList.erasePlugin (l : MetadataList) (name : String) : MetadataList :=
  { l with plugins := l.plugins.filter (fun p => !(lootKey p.name == lootKey name)) }

/-- Modelled from the spec: `MetadataList::Save` (§4.3): the serialiser
emits the known tags, the global messages and every plugin entry that
carries metadata besides its name; name-only entries produce no document
entry, which is what makes `WriteMinimalList` emit only plugins that carry
tag suggestions or cleaning data.  Reading the written document back
(`MetadataList::Load`) returns exactly the emitted entries, so this
function models the write-then-read pipeline. -/
def MetadataList.save (l : MetadataList) : MetadataList :=
  { l with plugins := l.plugins.filter (fun p => !p.hasNameOnly) }

/-- The database state held by `ApiDatabase`: the loaded masterlist and
userlist and the game cache's condition-result cache. -/
structure DbState where
  masterlist : MetadataList
  userlist : MetadataList
  conditionCache : List (String × Bool)
deriving DecidableEq

/-- Modelled from the spec: one condition evaluation (§4.1): an absent
condition (empty string) is true, otherwise the on-disk state decides;
`env` abstracts the filesystem and load order within one cache epoch. -/
def evalCondition (env : String → Bool) (c : String) : Bool :=
  if c = "" then true else env c

/-- Modelled from the spec: memoised condition evaluation against the
condition cache: a hit returns the cached value, a miss evaluates and
records the result. -/
def evalCachedCondition (env : String → Bool) (cache : List (String × Bool))
    (c : String) : Bool × List (String × Bool) :=
  if c = "" then (true, cache)
  else
    match cache.lookup c with
    | some b => (b, cache)
    | none => (env c, (c, env c) :: cache)

/-- The in-place erase loop of `GetGeneralMessages`: keep each message iff
its condition evaluates true, threading the condition cache. -/
def filterVisibleMessages (env : String → Bool) :
    List Message → List (String × Bool) → List Message × List (String × Bool)
  | [], cache => ([], cache)
  | m :: ms, cache =>
    let r := evalCachedCondition env cache m.condition
    let rest := filterVisibleMessages env ms r.2
    (if r.1 then m :: rest.1 else rest.1, rest.2)

/-- Embedded from `ApiDatabase::GetGeneralMessages`: concatenate masterlist
then userlist general messages; when evaluating, clear the cached
conditions first and erase every message whose condition fails. -/
def getGeneralMessages (env : String → Bool) (st : DbState)
    (evaluateConditions : Bool) : List Message × DbState :=
  let msgs := st.masterlist.messages ++ st.userlist.messages
  if evaluateConditions then
    let r := filterVisibleMessages env msgs []
    (r.1, { st with conditionCache := r.2 })
  else (msgs, st)

def File.clearCondition (f : File) : File := { f with condition := "" }

def Tag.clearCondition (t : Tag) : Tag := { t with condition := "" }

def Message.clearCondition (m : Message) : Message := { m with condition := "" }

/-- Modelled from the spec: `ConditionEvaluator::evaluateAll` (§4.3,
condition_evaluator.cpp is not under src/): every conditional-bearing
sub-value is resolved against the environment and the condition strings
are cleared in the returned copy. -/
def evaluateAll (env : String → Bool) (md : PluginMetadata) : PluginMetadata :=
  { md with
    after := (md.after.filter (fun f => evalCondition env f.condition)).map File.clearCondition
    req := (md.req.filter (fun f => evalCondition env f.condition)).map File.clearCondition
    inc := (md.inc.filter (fun f => evalCondition env f.condition)).map File.clearCondition
    messages := (md.messages.filter (fun m => evalCondition env m.condition)).map Message.clearCondition
    tags := (md.tags.filter (fun t => evalCondition env t.condition)).map Tag.clearCondition }

/-- Embedded from `ApiDatabase::GetPluginMetadata`: masterlist entry,
merged with the userlist entry when requested, then evaluated when
requested. -/
def getPluginMetadata (env : String → Bool) (st : DbState) (plugin : String)
    (includeUserMetadata evaluateConditions : Bool) : PluginMetadata :=
  let md := st.masterlist.findPlugin plugin
  let md := if includeUserMetadata then mergeMetadata md (st.userlist.findPlugin plugin) else md
  if evaluateConditions then evaluateAll env md else md

/-- Embedded from `ApiDatabase::GetPluginUserMetadata`: the userlist entry
alone, evaluated when requested. -/
def getPluginUserMetadata (env : String → Bool) (st : DbState) (plugin : String)
    (evaluateConditions : Bool) : PluginMetadata :=
  let md := st.userlist.findPlugin plugin
  if evaluateConditions then evaluateAll env md else md

/-- Embedded from `ApiDatabase::SetPluginUserMetadata`: `ErasePlugin` then
`AddPlugin` on the userlist, in that order. -/
def setPluginUserMetadata (st : DbState) (md : PluginMetadata) : DbState :=
  { st with userlist := (st.userlist.erasePlugin md.name).addPlugin md }

/-- Embedded from `ApiDatabase::DiscardPluginUserMetadata`. -/
def discardPluginUserMetadata (st : DbState) (plugin : String) : DbState :=
  { st with userlist := st.userlist.erasePlugin plugin }

/-- Embedded from `ApiDatabase::WriteUserMetadata`.  The two filesystem
probes on the output path are the booleans `parentExists` and
`fileExists`; `std::invalid_argument` is the `invalidArgument` kind.  On
success the returned value is the document written for the userlist. -/
def writeUserMetadata (st : DbState) (parentExists fileExists overwrite : Bool) :
    Except LootError MetadataList :=
  if !parentExists then .error .invalidArgument
  else if fileExists && !overwrite then .error .fileAccessError
  else .ok st.userlist.save

/-- The minimal entry built by the `WriteMinimalList` loop:
`PluginMetadata minimalPlugin(plugin.GetName())` followed by `SetTags`
and `SetDirtyInfo`. -/
def minimalPlugin (p : PluginMetadata) : PluginMetadata :=
  { PluginMetadata.emptyNamed p.name with tags := p.tags, dirty := p.dirty }

/-- The minimal metadata list that `WriteMinimalList` assembles before
saving: one minimal entry per masterlist plugin, no global messages, no
known tags. -/
def buildMinimalList (masterlist : MetadataList) : MetadataList :=
  { plugins := masterlist.plugins.map minimalPlugin, messages := [], bashTags := [] }

/-- Embedded from `ApiDatabase::WriteMinimalList`: same output-path checks
as `WriteUserMetadata`, then save the assembled minimal list.  On success
the returned value is the written document, which is also what reading
the file back yields. -/
def writeMinimalList (st : DbState) (parentExists fileExists overwrite : Bool) :
    Except LootError MetadataList :=
  if !parentExists then .error .invalidArgument
  else if fileExists && !overwrite then .error .fileAccessError
  else .ok (buildMinimalList st.masterlist).save

/-- Embedded from `ApiDatabase::UpdateMasterlist`.  `parentIsDir` is the
probe on the masterlist path's parent directory; `updateResult` is the
outcome of the delegated `Masterlist::Update` VCS call: an error it
throws, or the changed flag together with the masterlist it parsed.  The
pair returned is the database state after the call and the call's own
outcome. -/
def updateMasterlist (st : DbState) (parentIsDir : Bool)
    (updateResult : Except LootError (Bool × MetadataList)) :
    DbState × Except LootError Bool :=
  if !parentIsDir then (st, .error .invalidArgument)
  else
    match updateResult with
    | .error e => (st, .error e)
    | .ok (changed, newList) =>
      if changed then ({ st with masterlist := newList }, .ok true)
      else (st, .ok false)

/-- A file on disk as the metadata loader sees it: a document that parses
to a metadata list, or a malformed document. -/
inductive FsDoc where
  | content (doc : MetadataList)
  | malformed
deriving DecidableEq

/-- The filesystem visible to `LoadLists`: each path either holds a
document or no file exists at it. -/
def FS : Type := String → Option FsDoc

/-- Modelled from the spec: `MetadataList::Load` on an existing file
(metadata_list.cpp is not under src/): a well-formed document yields its
metadata list; a malformed one fails loudly with a parse error
(`conditionError` stands for the condition/metadata parse failure kinds,
which are distinct from `fileAccessError`). -/
def loadFile (fs : FS) (path : String) : Except LootError MetadataList :=
  match fs path with
  | some (.content doc) => .ok doc
  | some .malformed => .error .conditionError
  | none => .error .fileAccessError

/-- One branch of `LoadLists`: an empty path leaves the freshly
default-constructed temporary empty; a non-empty path is loaded when a
file exists at it and throws `FileAccessError` otherwise. -/
def loadStep (fs : FS) (path : String) : Except LootError MetadataList :=
  if path = "" then .ok MetadataList.empty
  else if (fs path).isSome then loadFile fs path
  else .error .fileAccessError

/-- Embedded from `ApiDatabase::LoadLists`: both temporaries are computed
before either member is assigned; a thrown error propagates with the
state exactly as it was at the throw point. -/
def loadLists (st : DbState) (fs : FS) (masterlistPath userlistPath : String) :
    DbState × Option LootError :=
  match loadStep fs masterlistPath with
  | .error e => (st, some e)
  | .ok temp =>
    match loadStep fs userlistPath with
    | .error e => (st, some e)
    | .ok userTemp =>
      ({ st with masterlist := temp, userlist := userTemp }, none)

/-- Modelled from the spec: the sorter's per-plugin input (§4.4,
plugin_sorter.cpp is not under src/): plugin view data (name, master
flag, header masters) together with that plugin's merged metadata
(load-after and requirement references, group, priorities). -/
structure SortPlugin where
  name : String
  isMaster : Bool
  masters : List String
  loadAfter : List String
  requirements : List String
  group : Option String
  globalPriority : Int
  priority : Int
deriving DecidableEq

/-- Modelled from the spec: the complete sorter input of §4.5: the
installed plugins in current load order (the list position is the
load-order index) and the group DAG edges declared in the masterlist. -/
structure SortInput where
  plugins : List SortPlugin
  groupDag : List (String × String)
deriving DecidableEq

/-- Bounded reachability in the group DAG. -/
def groupReach (dag : List (String × String)) : Nat → String → String → Bool
  | 0, _, _ => false
  | n + 1, a, b =>
    dag.any (fun e => e.1 == a && (e.2 == b || groupReach dag n e.2 b))

/-- Group precedence: both plugins carry groups and the first group
transitively precedes the second in the DAG. -/
def groupPrecedes (dag : List (String × String)) (ga gb : Option String) : Bool :=
  match ga, gb with
  | some a, some b => groupReach dag (dag.length + 1) a b
  | _, _ => false

/-- Rules 1-4 of §4.4: master partition, header masters, metadata
load-after, metadata requirements (names compared case-insensitively). -/
def hardEdge (p q : SortPlugin) : Bool :=
  (p.isMaster && !q.isMaster) ||
  q.masters.any (fun m => lootKey m == lootKey p.name) ||
  q.loadAfter.any (fun m => lootKey m == lootKey p.name) ||
  q.requirements.any (fun m => lootKey m == lootKey p.name)

/-- An edge of the sort graph: a hard edge or a group edge. -/
def sortEdge (inp : SortInput) (p q : SortPlugin) : Bool :=
  hardEdge p q || groupPrecedes inp.groupDag p.group q.group

/-- Rule 6 of §4.4, the tie-break total order on indexed plugins: higher
global priority first, then higher priority, then current load-order
index, then case-insensitive name. -/
def tieBreakBefore (a b : Nat × SortPlugin) : Bool :=
  if a.2.globalPriority = b.2.globalPriority then
    if a.2.priority = b.2.priority then
      if a.1 = b.1 then decide (lootKey a.2.name < lootKey b.2.name)
      else decide (a.1 < b.1)
    else decide (b.2.priority < a.2.priority)
  else decide (b.2.globalPriority < a.2.globalPriority)

/-- The least pending plugin under the tie-break order. -/
def minByTieBreak : List (Nat × SortPlugin) → Option (Nat × SortPlugin)
  | [] => none
  | x :: xs => some (xs.foldl (fun best c => if tieBreakBefore c best then c else best) x)

/-- A pending plugin is eligible when no other pending plugin must load
before it. -/
def eligible (inp : SortInput) (pending : List (Nat × SortPlugin))
    (q : Nat × SortPlugin) : Bool :=
  pending.all (fun p => p.1 == q.1 || !(sortEdge inp p.2 q.2))

/-- Modelled from the spec: the sort loop (§4.5): repeatedly emit the
tie-break-least eligible plugin; when a cycle leaves no plugin eligible
the least pending plugin is emitted so the traversal still terminates
deterministically. -/
def sortLoop (inp : SortInput) : Nat → List (Nat × SortPlugin) → List String
  | 0, _ => []
  | n + 1, pending =>
    match minByTieBreak (pending.filter (eligible inp pending)) with
    | some c => c.2.name :: sortLoop inp n (pending.filter (fun x => !(x.1 == c.1)))
    | none =>
      match minByTieBreak pending with
      | some c => c.2.name :: sortLoop inp n (pending.filter (fun x => !(x.1 == c.1)))
      | none => []

/-- Modelled from the spec: `PluginSorter::Sort` (§4.4-§4.5): a pure
function of exactly the inputs §4.5 names (installed set, header masters,
merged metadata, group DAG, current load order, priorities, names),
producing the output ordering. -/
def sortPlugins (inp : SortInput) : List String :=
  sortLoop inp inp.plugins.length inp.plugins.enum

/-- A concrete tag used by the example values. -/
def exTag : Tag := ⟨"C.Climate", true, "file(\"Weather.esp\")"⟩

/-- A concrete message used by the example values. -/
def exMessage : Message := ⟨.warn, [⟨"en", "Check your install."⟩], ""⟩

/-- A concrete plugin metadata value used by witnesses. -/
def exMd : PluginMetadata :=
  { name := "A.esp"
    group := some "Late"
    after := [⟨"B.esp", "", ""⟩]
    req := []
    inc := []
    messages := [exMessage]
    tags := [exTag]
    dirty := [⟨0xDEAD, "xEdit", 1, 0, 0, "dirty"⟩]
    locations := []
    priority := .userSet 5
    globalPriority := .unset
    enabled := some true }

/-- A concrete masterlist used by witnesses. -/
def exMl : MetadataList :=
  { plugins := [exMd, PluginMetadata.emptyNamed "Plain.esp"]
    messages := [exMessage]
    bashTags := ["Delev"] }

/-- A concrete database state used by witnesses. -/
def exSt : DbState :=
  { masterlist := exMl
    userlist := { plugins := [exMd], messages := [], bashTags := [] }
    conditionCache := [("file(\"X.esp\")", true)] }

/-- A concrete filesystem on which the masterlist document is malformed
and no file exists at the userlist path. -/
def exFsC8 : FS :=
  fun p => if p = "master.yaml" then some .malformed else none

/-- A concrete filesystem holding one well-formed masterlist document. -/
def exFsOk : FS :=
  fun p => if p = "master.yaml" then some (.content exMl) else none

/-- The spec's end-to-end scenario A as sorter input: a master, and two
non-masters one of which declares the master in its header. -/
def exSortInput : SortInput :=
  { plugins :=
      [ ⟨"Base.esm", true, [], [], [], none, 0, 0⟩
      , ⟨"ModA.esp", false, [], [], [], none, 0, 0⟩
      , ⟨"ModB.esp", false, ["Base.esm"], [], [], none, 0, 0⟩ ]
    groupDag := [] }

/-- Consistency of the condition cache with the on-disk state of the
current cache epoch: every cached entry records the evaluator's answer. -/
def cacheConsistent (env : String → Bool) (cache : List (String × Bool)) : Prop :=
  ∀ p ∈ cache, p.2 = env p.1

/-! Theorems. -/

@[simp] theorem mergeOpt_none_right (s : Option α) : mergeOpt s none = s := rfl

@[simp] theorem mergeOpt_none_left (o : Option α) : mergeOpt (none : Option α) o = o := by
  cases o <;> rfl

@[simp] theorem mergePriority_unset_right (s : Priority) : mergePriority s .unset = s := rfl

@[simp] theorem mergePriority_unset_left (o : Priority) : mergePriority .unset o = o := by
  cases o <;> rfl

@[simp] theorem unionBy_nil_right (k : α → α → Bool) (l : List α) : unionBy k l [] = l := by
  simp [unionBy]

@[simp] theorem unionBy_nil_left (k : α → α → Bool) (l : List α) : unionBy k [] l = l := by
  simp [unionBy]

/-- C5: plugin-metadata merge has the empty (name-only) metadata value for
the same plugin name as a two-sided identity: merging an empty value into
`x` leaves `x` unchanged, and merging `x` into an empty value yields `x`. -/
theorem mergeMetadata_empty_identity (x e : PluginMetadata)
    (h1 : e.hasNameOnly = true) (h2 : e.name = x.name) :
    mergeMetadata x e = x ∧ mergeMetadata e x = x := by
  have he : e = PluginMetadata.emptyNamed x.name := by
    obtain ⟨n, g, a, r, i, m, t, d, l, p, gp, en⟩ := e
    simp only [PluginMetadata.hasNameOnly, Bool.and_eq_true, Option.isNone_iff_eq_none,
      List.isEmpty_iff, beq_iff_eq] at h1
    obtain ⟨⟨⟨⟨⟨⟨⟨⟨⟨⟨hg, ha⟩, hr⟩, hi⟩, hm⟩, ht⟩, hd⟩, hl⟩, hp⟩, hgp⟩, hen⟩ := h1
    simp only at h2
    subst hg ha hr hi hm ht hd hl hp hgp hen h2
    rfl
  subst he
  constructor
  · obtain ⟨n, g, a, r, i, m, t, d, l, p, gp, en⟩ := x
    simp only at *
    simp [mergeMetadata, PluginMetadata.emptyNamed]
  · obtain ⟨n, g, a, r, i, m, t, d, l, p, gp, en⟩ := x
    simp only at *
    simp [mergeMetadata, PluginMetadata.emptyNamed]

/-- C5 witness: the identity instantiated at a concrete metadata value. -/
theorem mergeMetadata_empty_identity_witness :
    (PluginMetadata.emptyNamed "A.esp").hasNameOnly = true ∧
    (mergeMetadata exMd (PluginMetadata.emptyNamed "A.esp") = exMd ∧
     mergeMetadata (PluginMetadata.emptyNamed "A.esp") exMd = exMd) :=
  ⟨by decide, mergeMetadata_empty_identity exMd (PluginMetadata.emptyNamed "A.esp")
    (by decide) rfl⟩

/-- Auxiliary fact for C6: after erasing every entry whose normalised name
matches and appending the new entry, the lookup finds exactly that entry. -/
theorem find_after_erase_add (l : List PluginMetadata) (md : PluginMetadata) :
    ((l.filter (fun p => !(lootKey p.name == lootKey md.name))) ++ [md]).find?
      (fun p => lootKey p.name == lootKey md.name) = some md := by
  induction l with
  | nil => simp [List.find?]
  | cons a t ih =>
    by_cases h : (lootKey a.name == lootKey md.name) = true
    · simp [List.filter_cons, h, ih]
    · have h' : (lootKey a.name == lootKey md.name) = false := by
        cases hb : (lootKey a.name == lootKey md.name) with
        | true => exact absurd hb h
        | false => rfl
      simp [List.filter_cons, h', List.find?, ih]

/-- C6: setting user metadata erases then adds, so the supplied entry
replaces any prior user entry for that plugin name, and querying the user
metadata for that name (without condition evaluation) afterwards returns
exactly the supplied entry, whatever the prior userlist state. -/
theorem setPluginUserMetadata_replaces (env : String → Bool) (st : DbState)
    (md : PluginMetadata) :
    getPluginUserMetadata env (setPluginUserMetadata st md) md.name false = md := by
  simp [getPluginUserMetadata, setPluginUserMetadata, MetadataList.findPlugin,
    MetadataList.erasePlugin, MetadataList.addPlugin, find_after_erase_add]
  rw [List.find?_eq_none.mpr (by intro x _; simp)]
  rfl

/-- Auxiliary fact for C3: a hit in a consistent condition cache returns the
evaluator's answer. -/
theorem lookup_consistent (env : String → Bool) :
    ∀ (cache : List (String × Bool)), cacheConsistent env cache →
      ∀ (c : String) (b : Bool), cache.lookup c = some b → b = env c := by
  intro cache
  induction cache with
  | nil => intro _ c b h; simp [List.lookup] at h
  | cons kv t ih =>
    intro hc c b h
    obtain ⟨k, v⟩ := kv
    simp only [List.lookup] at h
    by_cases hk : c = k
    · subst hk
      have hv := hc (c, v) (List.mem_cons_self _ _)
      simp only [beq_self_eq_true, Option.some.injEq] at h
      subst h
      exact hv
    · have hk' : (c == k) = false := beq_eq_false_iff_ne.mpr hk
      simp only [hk'] at h
      exact ih (fun p hp => hc p (List.mem_cons_of_mem _ hp)) c b h

/-- Auxiliary fact for C3: memoised evaluation against a consistent cache
returns the plain evaluation and keeps the cache consistent. -/
theorem evalCachedCondition_spec (env : String → Bool) (cache : List (String × Bool))
    (c : String) (hc : cacheConsistent env cache) :
    (evalCachedCondition env cache c).1 = evalCondition env c ∧
    cacheConsistent env (evalCachedCondition env cache c).2 := by
  unfold evalCachedCondition evalCondition
  by_cases h : c = ""
  · simp only [h, if_pos rfl]
    exact ⟨rfl, hc⟩
  · simp only [if_neg h]
    cases hl : cache.lookup c with
    | some b =>
      exact ⟨lookup_consistent env cache hc c b hl, hc⟩
    | none =>
      refine ⟨rfl, ?_⟩
      intro p hp
      rcases List.mem_cons.mp hp with h1 | h2
      · subst h1; rfl
      · exact hc p h2

/-- Auxiliary fact for C3: the erase loop over the concatenated message
list, run against any consistent cache, keeps exactly the messages whose
condition evaluates true, and leaves a consistent cache. -/
theorem filterVisibleMessages_spec (env : String → Bool) (msgs : List Message) :
    ∀ cache, cacheConsistent env cache →
      (filterVisibleMessages env msgs cache).1
        = msgs.filter (fun m => evalCondition env m.condition) ∧
      cacheConsistent env (filterVisibleMessages env msgs cache).2 := by
  induction msgs with
  | nil => intro cache hc; exact ⟨rfl, hc⟩
  | cons m ms ih =>
    intro cache hc
    obtain ⟨h1, h2⟩ := evalCachedCondition_spec env cache m.condition hc
    obtain ⟨h3, h4⟩ := ih _ h2
    have hunfold : filterVisibleMessages env (m :: ms) cache =
        (if (evalCachedCondition env cache m.condition).1 then
            m :: (filterVisibleMessages env ms (evalCachedCondition env cache m.condition).2).1
          else (filterVisibleMessages env ms (evalCachedCondition env cache m.condition).2).1,
         (filterVisibleMessages env ms (evalCachedCondition env cache m.condition).2).2) := rfl
    rw [hunfold]
    refine ⟨?_, h4⟩
    rw [h1, h3, List.filter_cons]

/-- C3: general messages are the masterlist's followed by the userlist's;
with condition evaluation requested the condition cache is cleared first
(the call's outcome is independent of the incoming cache) and a message
appears in the result iff its condition evaluates to true (an absent
condition counts as true). -/
theorem getGeneralMessages_spec (env : String → Bool) (st : DbState) :
    (getGeneralMessages env st false).1
      = st.masterlist.messages ++ st.userlist.messages ∧
    (getGeneralMessages env st true).1
      = (st.masterlist.messages ++ st.userlist.messages).filter
          (fun m => evalCondition env m.condition) ∧
    (∀ m, m ∈ (getGeneralMessages env st true).1 ↔
        (m ∈ st.masterlist.messages ++ st.userlist.messages ∧
         evalCondition env m.condition = true)) ∧
    ∀ c, getGeneralMessages env { st with conditionCache := c } true
        = getGeneralMessages env st true := by
  have hbase := filterVisibleMessages_spec env
    (st.masterlist.messages ++ st.userlist.messages) [] (by intro p hp; cases hp)
  have h2 : (getGeneralMessages env st true).1
      = (st.masterlist.messages ++ st.userlist.messages).filter
          (fun m => evalCondition env m.condition) := hbase.1
  refine ⟨rfl, h2, ?_, ?_⟩
  · intro m
    rw [h2]
    simp [List.mem_filter]
    tauto
  · intro c
    rfl

/-- Auxiliary fact for C2: the minimal entry built for a plugin is name-only
exactly when the plugin carries neither tag suggestions nor cleaning data. -/
theorem hasNameOnly_minimalPlugin (q : PluginMetadata) :
    (minimalPlugin q).hasNameOnly = (q.tags.isEmpty && q.dirty.isEmpty) := by
  simp [minimalPlugin, PluginMetadata.hasNameOnly, PluginMetadata.emptyNamed,
    Bool.and_true, Bool.true_and]

/-- Auxiliary fact for C2: serialising the assembled minimal entries keeps
exactly those whose source plugin carries tags or cleaning data. -/
theorem save_minimal_plugins (l : List PluginMetadata) :
    (l.map minimalPlugin).filter (fun p => !p.hasNameOnly)
      = (l.filter (fun q => !(q.tags.isEmpty && q.dirty.isEmpty))).map minimalPlugin := by
  induction l with
  | nil => rfl
  | cons q t ih =>
    simp only [List.map_cons, List.filter_cons, hasNameOnly_minimalPlugin]
    cases hq : (q.tags.isEmpty && q.dirty.isEmpty) with
    | true => simpa [hq] using ih
    | false => simp [hq, ih]

/-- C2: with a consistent output path, `WriteMinimalList` writes (and
reading back yields) a metadata list whose plugin entries are exactly the
masterlist plugins carrying tag suggestions or cleaning data, each entry
holding the plugin name, the original tags and the original cleaning data
(conditions included, as fields of those values) and no other metadata. -/
theorem writeMinimalList_minimal (st : DbState) :
    writeMinimalList st true false true
      = .ok { plugins :=
                (st.masterlist.plugins.filter
                  (fun q => !(q.tags.isEmpty && q.dirty.isEmpty))).map
                  (fun q => { PluginMetadata.emptyNamed q.name with
                                tags := q.tags, dirty := q.dirty })
              messages := []
              bashTags := [] } := by
  show Except.ok (buildMinimalList st.masterlist).save = _
  rw [show (buildMinimalList st.masterlist).save
      = { plugins := (st.masterlist.plugins.map minimalPlugin).filter
            (fun p => !p.hasNameOnly)
          messages := []
          bashTags := ([] : List String) } from rfl]
  rw [save_minimal_plugins]
  rfl

/-- C7 counterexample: with an existing parent directory, an existing
output file and overwrite false, both write operations fail with the
`FileAccessError` kind, which is not the `InvalidArgument` kind the claim
names. -/
theorem write_overwrite_error_kind_cex :
    writeUserMetadata exSt true true false = .error .fileAccessError ∧
    writeMinimalList exSt true true false = .error .fileAccessError ∧
    LootError.fileAccessError ≠ LootError.invalidArgument :=
  ⟨rfl, rfl, by decide⟩

/-- C7 amended: a missing output parent directory makes both write
operations fail with `InvalidArgument`; an existing output file with
overwrite false makes both fail with `FileAccessError`; in either failure
no file is written (no document is produced). -/
theorem write_error_kinds (st : DbState) (pe fe ow : Bool) :
    (pe = false →
      writeUserMetadata st pe fe ow = .error .invalidArgument ∧
      writeMinimalList st pe fe ow = .error .invalidArgument) ∧
    (pe = true → fe = true → ow = false →
      writeUserMetadata st pe fe ow = .error .fileAccessError ∧
      writeMinimalList st pe fe ow = .error .fileAccessError) := by
  constructor
  · intro h
    subst h
    exact ⟨rfl, rfl⟩
  · intro h1 h2 h3
    subst h1
    subst h2
    subst h3
    exact ⟨rfl, rfl⟩

/-- C4: `UpdateMasterlist` returns true iff the delegated update ran (the
path check passed) and reported changed contents; the stored masterlist is
replaced by the newly parsed one exactly on that outcome; on a no-change
report, an update error or a path-check failure the whole database state
is untouched. -/
theorem updateMasterlist_spec (st : DbState) (pd : Bool)
    (r : Except LootError (Bool × MetadataList)) :
    ((updateMasterlist st pd r).2 = .ok true ↔
      pd = true ∧ ∃ ml, r = .ok (true, ml)) ∧
    (∀ ml, pd = true → r = .ok (true, ml) →
      (updateMasterlist st pd r).1 = { st with masterlist := ml }) ∧
    ((updateMasterlist st pd r).2 ≠ .ok true → (updateMasterlist st pd r).1 = st) := by
  cases pd with
  | false => simp [updateMasterlist]
  | true =>
    cases r with
    | error e => simp [updateMasterlist]
    | ok p =>
      obtain ⟨changed, ml⟩ := p
      cases changed with
      | true => simp [updateMasterlist]
      | false => simp [updateMasterlist]

/-- C8 counterexample: when the masterlist document is malformed its parse
failure propagates before the userlist path is examined, so `LoadLists`
does not raise `FileAccessError` even though the userlist path is
non-empty and no file exists at it — the claimed equivalence fails at
this input. -/
theorem loadLists_fileAccess_iff_cex :
    ¬(((loadLists exSt exFsC8 "master.yaml" "user.yaml").2
        = some .fileAccessError) ↔
      (("master.yaml" ≠ "" ∧ exFsC8 "master.yaml" = none) ∨
       ("user.yaml" ≠ "" ∧ exFsC8 "user.yaml" = none))) := by
  decide

/-- C8 amended: `LoadLists` accepts an empty string for either path (both
empty always succeeds), and raises `FileAccessError` iff the masterlist
path is non-empty with no file at it, or the masterlist step succeeds and
the userlist path is non-empty with no file at it. -/
theorem loadLists_fileAccess_iff (st : DbState) (fs : FS) (mp up : String) :
    ((loadLists st fs mp up).2 = some .fileAccessError ↔
      ((mp ≠ "" ∧ fs mp = none) ∨
       ((∃ t, loadStep fs mp = .ok t) ∧ up ≠ "" ∧ fs up = none))) ∧
    (mp = "" → up = "" → (loadLists st fs mp up).2 = none) := by
  constructor
  · by_cases hmp : mp = ""
    · subst hmp
      by_cases hup : up = ""
      · subst hup
        simp [loadLists, loadStep]
      · cases hfu : fs up with
        | none => simp [loadLists, loadStep, hfu, hup]
        | some d =>
          cases d with
          | content doc => simp [loadLists, loadStep, loadFile, hfu, hup]
          | malformed => simp [loadLists, loadStep, loadFile, hfu, hup]
    · cases hfm : fs mp with
      | none => simp [loadLists, loadStep, hfm, hmp]
      | some d =>
        cases d with
        | malformed => simp [loadLists, loadStep, loadFile, hfm, hmp]
        | content doc =>
          by_cases hup : up = ""
          · subst hup
            simp [loadLists, loadStep, loadFile, hfm, hmp]
          · cases hfu : fs up with
            | none => simp [loadLists, loadStep, loadFile, hfm, hmp, hfu, hup]
            | some du =>
              cases du with
              | content docu =>
                simp [loadLists, loadStep, loadFile, hfm, hmp, hfu, hup]
              | malformed =>
                simp [loadLists, loadStep, loadFile, hfm, hmp, hfu, hup]
  · intro h1 h2
    subst h1
    subst h2
    simp [loadLists, loadStep]

/-- C8 witness for the amended claim: a missing masterlist file is reported
as `FileAccessError`, and two empty paths are accepted. -/
theorem loadLists_fileAccess_iff_witness :
    ((loadLists exSt exFsC8 "missing.yaml" "").2 = some .fileAccessError ↔
      (("missing.yaml" ≠ "" ∧ exFsC8 "missing.yaml" = none) ∨
       ((∃ t, loadStep exFsC8 "missing.yaml" = .ok t) ∧ ("" : String) ≠ "" ∧
        exFsC8 "" = none))) ∧
    (loadLists exSt exFsC8 "" "").2 = none :=
  ⟨(loadLists_fileAccess_iff exSt exFsC8 "missing.yaml" "").1,
   (loadLists_fileAccess_iff exSt exFsC8 "" "").2 rfl rfl⟩

/-- C9: `LoadLists` parses both files into temporaries before either stored
list is assigned, so on any failure the database state is exactly what it
was before the call. -/
theorem loadLists_failure_atomic (st : DbState) (fs : FS) (mp up : String)
    (e : LootError) (h : (loadLists st fs mp up).2 = some e) :
    (loadLists st fs mp up).1 = st := by
  unfold loadLists at *
  cases hm : loadStep fs mp with
  | error e1 => simp [hm]
  | ok t =>
    cases hu : loadStep fs up with
    | error e2 => simp [hm, hu]
    | ok u =>
      rw [hm, hu] at h
      simp at h

/-- C9 witness: a failing load at a concrete input leaves the concrete
state unchanged. -/
theorem loadLists_failure_atomic_witness :
    (loadLists exSt exFsC8 "missing.yaml" "").1 = exSt :=
  loadLists_failure_atomic exSt exFsC8 "missing.yaml" "" .fileAccessError (by decide)

/-- C10: a successful `LoadLists` call overwrites both stored lists: an
empty masterlist (or userlist) path replaces the corresponding stored
list with the empty list, discarding whatever an earlier call loaded. -/
theorem loadLists_empty_path_overwrites (st : DbState) (fs : FS) (mp up : String) :
    ((loadLists st fs "" up).2 = none →
      (loadLists st fs "" up).1.masterlist = MetadataList.empty) ∧
    ((loadLists st fs mp "").2 = none →
      (loadLists st fs mp "").1.userlist = MetadataList.empty) := by
  constructor
  · intro h
    unfold loadLists at *
    cases hu : loadStep fs up with
    | error e =>
      rw [show loadStep fs "" = .ok MetadataList.empty from rfl, hu] at h
      simp at h
    | ok u => rfl
  · intro h
    unfold loadLists at *
    cases hm : loadStep fs mp with
    | error e =>
      rw [hm] at h
      simp at h
    | ok t => rfl

/-- C1: sorting is deterministic: two sort invocations given identical
inputs (installed plugin set, header masters, merged metadata, group DAG,
current load order, priorities, names) produce identical output
orderings. -/
theorem sortPlugins_deterministic (i1 i2 : SortInput) (h : i1 = i2) :
    sortPlugins i1 = sortPlugins i2 := by
  rw [h]

/-- C1 witness: the determinism theorem instantiated at the spec's
scenario-A plugin set. -/
theorem sortPlugins_deterministic_witness :
    sortPlugins exSortInput = sortPlugins exSortInput :=
  sortPlugins_deterministic exSortInput exSortInput rfl

end Loot
